import Mathlib

/-!
# Verification of the hilicita document-ingestion and checklist pipeline

Shallow embedding of the NestJS API services
(`apps/api/src/documents/documents.service.ts`,
`apps/api/src/checklists/checklists.service.ts`, the documents controller,
`apps/api/src/redis/redis.service.ts`) and of the queue worker's job loop.
The worker's Python source is not part of the analysed tree, so its steps are
modelled from the specification (sections 4.1, 5 and 7 of the spec); every
such definition carries a doc comment starting with the words
"Modelled from the spec".

JSON values are modelled by an inductive type; JavaScript optional chaining
(`x?.k`) and nullish coalescing (`x ?? null`) are modelled by `jGet` and
`jsNonNull`.  Database tables are lists of row structures; Prisma
`findFirst` is `List.find?`, inserts append, `delete` erases, and the
`Checklist_documentId_key` UNIQUE index is reflected as a guard on the
worker's insert step.
-/

namespace HiLicita

/-- JSON values (numbers restricted to integers; the persisted scalar
columns that matter here are `TEXT` and `INTEGER`). -/
inductive Json where
  | null : Json
  | bool : Bool → Json
  | num : Int → Json
  | str : String → Json
  | arr : List Json → Json
  | obj : List (String × Json) → Json

/-- First binding of a key in a JSON object's field list. -/
def lookupField : List (String × Json) → String → Option Json
  | [], _ => none
  | (k', v) :: t, k => if k' = k then some v else lookupField t k

/-- JavaScript property access `x?.k`: `undefined` (here `none`) unless `x`
is an object with field `k`. -/
def jGet : Json → String → Option Json
  | .obj fs, k => lookupField fs k
  | _, _ => none

/-- JavaScript `e ?? null`: collapses a present JSON `null` into absence, so
that both `undefined` and `null` are represented by `none`. -/
def jsNonNull : Option Json → Option Json
  | some .null => none
  | o => o

/-- Document lifecycle status (`Document.status`, a `TEXT` column holding
one of the four values used by the code). -/
inductive Status where
  | pending | processing | done | failed
deriving DecidableEq, Repr

/-- A row of the `Document` table (`0_init/migration.sql`). -/
structure DocumentRow where
  id : String
  userId : String
  file_name : String
  status : Status
  storageKey : Option String
deriving DecidableEq, Repr

/-- A row of the `Checklist` table.  The scalar columns receive exactly the
JSON values the services pass to Prisma, hence `Option Json`. -/
structure ChecklistRow where
  id : String
  userId : String
  file_name : String
  data : Json
  pontuacao : Option Int
  orgao : Option Json
  objeto : Option Json
  valor_total : Option Json
  documentId : Option String
  created_at : Nat

/-- The payload pushed onto the ingest queue by
`DocumentsService.createAndEnqueue` (`redis.service.ts` push shape). -/
structure JobPayload where
  documentId : String
  userId : String
  fileUrl : String
  fileName : Option String
deriving DecidableEq, Repr

/-- Name of the ingest queue (`redis.service.ts`). -/
def DOCUMENT_INGEST_QUEUE : String := "document:ingest"

/-- Errors surfaced by the API layer: `NotFoundException`,
`BadRequestException`, and an uncaught exception (e.g. `JSON.parse`
failing inside `generate`). -/
inductive ApiError where
  | notFound | badRequest | internal
deriving DecidableEq, Repr

/-- Phases of one worker job for a popped payload. -/
inductive WorkerPhase where
  | started    -- payload validated, nothing written yet
  | working    -- document marked `processing`
  | inserted   -- checklist row inserted
  | finished   -- job exited
deriving DecidableEq, Repr

/-- One in-flight worker job. -/
structure WorkerJob where
  payload : JobPayload
  phase : WorkerPhase
deriving DecidableEq, Repr

/-- Global state: the two persistent tables, the multiset of payloads ever
pushed (the durable queue, delivered at least once), and the worker jobs. -/
structure SysState where
  documents : List DocumentRow
  checklists : List ChecklistRow
  pushed : List JobPayload
  jobs : List WorkerJob

/-- The empty initial state. -/
def initState : SysState := ⟨[], [], [], []⟩

/-- Status of the document with a given id (`none` if no row exists). -/
def statusIn (docs : List DocumentRow) (id : String) : Option Status :=
  (docs.find? (fun d => d.id == id)).map (·.status)

/-- Status of a document in a system state. -/
def docStatus (s : SysState) (id : String) : Option Status :=
  statusIn s.documents id

/-- Prisma `document.update({where: {id}, data: {status}})`: set the status
of the row with the given id, leaving every other column unchanged. -/
def setStatus (docs : List DocumentRow) (id : String) (st : Status) :
    List DocumentRow :=
  docs.map (fun d => if d.id == id then { d with status := st } else d)

/-- Prisma `document.findFirst({where: {id, userId}})`. -/
def findDocument (s : SysState) (id userId : String) : Option DocumentRow :=
  s.documents.find? (fun d => d.id == id && d.userId == userId)

/-- Number of checklist rows whose `documentId` column references the given
document. -/
def linkedCount (s : SysState) (docId : String) : Nat :=
  (s.checklists.filter (fun c => c.documentId == some docId)).length

/-- Whether some checklist row references the given document. -/
def hasLinked (s : SysState) (docId : String) : Bool :=
  s.checklists.any (fun c => c.documentId == some docId)

/-! ## ChecklistsService (checklists.service.ts) -/

/-- The scalar values `ChecklistsService.generate` extracts from the parsed
LLM output (lines 136-150 of `checklists.service.ts`): optional chaining
into `edital`, `?? null`, and a `typeof pontuacao === 'number'` test. -/
structure Scalars where
  pontuacao : Option Int
  orgao : Option Json
  objeto : Option Json
  valor_total : Option Json

/-- Extraction performed by `ChecklistsService.generate`:
`orgao = checklist.edital?.orgao ?? null`, likewise `objeto` and
`valorTotal`, and `pontuacao = checklist.pontuacao ?? null` kept only when
it is a number. -/
def extractScalars (checklist : Json) : Scalars :=
  let ed := jGet checklist "edital"
  let orgao := jsNonNull (ed.bind (jGet · "orgao"))
  let objeto := jsNonNull (ed.bind (jGet · "objeto"))
  let valorTotal := jsNonNull (ed.bind (jGet · "valorTotal"))
  let pontuacao := jsNonNull (jGet checklist "pontuacao")
  { pontuacao := match pontuacao with
      | some (.num n) => some n
      | _ => none
    orgao := orgao
    objeto := objeto
    valor_total := valorTotal }

/-- `ChecklistsService.generate(documentId, userId, fileName)`.  The LLM
round-trip is abstracted by `parsed`, the outcome of
`JSON.parse` on the (fence-stripped) response: `none` when parsing throws.
On success the function yields the checklist row handed to
`prisma.checklist.create` — note the absence of a `documentId` value —
together with the parsed checklist returned to the caller. -/
def generate (s : SysState) (documentId userId fileName : String)
    (parsed : Option Json) (newId : String) (now : Nat) :
    Except ApiError (ChecklistRow × Json) :=
  match findDocument s documentId userId with
  | none => .error .notFound
  | some doc =>
    if doc.status ≠ Status.done then .error .notFound
    else
      match parsed with
      | none => .error .internal
      | some checklist =>
        let sc := extractScalars checklist
        .ok ({ id := newId
               userId := userId
               file_name := fileName
               data := checklist
               pontuacao := sc.pontuacao
               orgao := sc.orgao
               objeto := sc.objeto
               valor_total := sc.valor_total
               documentId := none
               created_at := now }, checklist)

/-- Request body of `POST /checklists` (typed in the controller: the scalar
fields are optional strings / number). -/
structure CreateBody where
  file_name : String
  data : Json
  pontuacao : Option Int
  orgao : Option String
  objeto : Option String
  valor_total : Option String

/-- `ChecklistsService.create(userId, data)`: the row handed to
`prisma.checklist.create` — again without a `documentId` value. -/
def createChecklist (userId : String) (body : CreateBody)
    (newId : String) (now : Nat) : ChecklistRow :=
  { id := newId
    userId := userId
    file_name := body.file_name
    data := body.data
    pontuacao := body.pontuacao
    orgao := body.orgao.map Json.str
    objeto := body.objeto.map Json.str
    valor_total := body.valor_total.map Json.str
    documentId := none
    created_at := now }

/-- `ChecklistsService.findAll(userId)`: rows of the user, ordered by
`created_at` descending (insertion sort models `orderBy`). -/
def insertDesc (c : ChecklistRow) : List ChecklistRow → List ChecklistRow
  | [] => [c]
  | x :: t => if x.created_at < c.created_at then c :: x :: t
              else x :: insertDesc c t

/-- Sort checklist rows by `created_at` descending. -/
def sortByCreatedDesc (l : List ChecklistRow) : List ChecklistRow :=
  l.foldr insertDesc []

/-- `ChecklistsService.findAll(userId)`. -/
def findAll (s : SysState) (userId : String) : List ChecklistRow :=
  sortByCreatedDesc (s.checklists.filter (fun c => c.userId == userId))

/-- `ChecklistsService.findOne(id, userId)`. -/
def findOne (s : SysState) (id userId : String) :
    Except ApiError ChecklistRow :=
  match s.checklists.find? (fun c => c.id == id && c.userId == userId) with
  | some c => .ok c
  | none => .error .notFound

/-- `ChecklistsService.delete(id, userId)`: look the row up scoped to the
user, then `delete({where: {id}})`; returns the table after deletion. -/
def deleteChecklist (s : SysState) (id userId : String) :
    Except ApiError (List ChecklistRow) :=
  match s.checklists.find? (fun c => c.id == id && c.userId == userId) with
  | none => .error .notFound
  | some _ => .ok (s.checklists.eraseP (fun c => c.id == id))

/-! ## DocumentsService (documents.service.ts) -/

/-- The multer file object reaching the controller and service. -/
structure UploadedFile where
  originalname : Option String
  mimetype : String
deriving DecidableEq, Repr

/-- Characters strictly after the last `'.'` of a name, `none` when no dot
occurs. -/
def afterLastDot : List Char → Option (List Char)
  | [] => none
  | c :: t =>
    match afterLastDot t with
    | some r => some r
    | none => if c = '.' then some t else none

/-- The regex `/\.[^.]+$/` of `createAndEnqueue`: the final extension of a
file name (a dot followed by at least one non-dot character at the end),
or the empty string; computed on the character list. -/
def extOf : Option String → String
  | none => ""
  | some n =>
    match afterLastDot n.data with
    | none => ""
    | some [] => ""
    | some r => String.mk ('.' :: r)

/-- View returned by `createAndEnqueue`. -/
structure CreateResult where
  documentId : String
  status : String
deriving DecidableEq, Repr

/-- Observable side effects of `createAndEnqueue`, in program order. -/
inductive Effect where
  | storageUpload : String → Effect
  | docCreate : DocumentRow → Effect
  | queuePush : String → JobPayload → Effect

/-- The Document row created by `createAndEnqueue`. -/
def mkDocRow (userId newId : String) (file : UploadedFile)
    (storageKey : String) : DocumentRow :=
  { id := newId
    userId := userId
    file_name := file.originalname.getD "document"
    status := .pending
    storageKey := some storageKey }

/-- The job payload pushed by `createAndEnqueue`. -/
def mkPayload (userId newId fileUrl : String) (file : UploadedFile) :
    JobPayload :=
  { documentId := newId
    userId := userId
    fileUrl := fileUrl
    fileName := some (file.originalname.getD "document") }

/-- `DocumentsService.createAndEnqueue(userId, file)`.  `configured`
abstracts `storage.isConfigured()`; `presign` abstracts
`storage.getPresignedDownloadUrl`; `newId` is the fresh `randomUUID()`.
The storage key is built by `StorageService.upload` as
userId/documentId+ext. -/
def createAndEnqueue (configured : Bool) (presign : String → String)
    (newId userId : String) (file : UploadedFile) :
    Except ApiError (List Effect × CreateResult) :=
  if !configured then .error .badRequest
  else
    let ext := extOf file.originalname
    let storageKey := userId ++ "/" ++ newId ++ ext
    let fileUrl := presign storageKey
    .ok ([Effect.storageUpload storageKey,
          Effect.docCreate (mkDocRow userId newId file storageKey),
          Effect.queuePush DOCUMENT_INGEST_QUEUE
            (mkPayload userId newId fileUrl file)],
         { documentId := newId, status := "pending" })

/-- View returned by `DocumentsService.getStatus`. -/
structure StatusView where
  id : String
  status : Status
  file_name : String
deriving DecidableEq, Repr

/-- `DocumentsService.getStatus(documentId, userId)`. -/
def getStatus (s : SysState) (documentId userId : String) :
    Except ApiError StatusView :=
  match findDocument s documentId userId with
  | none => .error .notFound
  | some d => .ok { id := d.id, status := d.status, file_name := d.file_name }

/-- `DocumentsService.getChecklistForDocument(documentId, userId)`: the
document scoped to the user must exist, then the checklist is looked up by
its `documentId` column scoped to the user; the stored `data` is
returned. -/
def getChecklistForDocument (s : SysState) (documentId userId : String) :
    Except ApiError Json :=
  match findDocument s documentId userId with
  | none => .error .notFound
  | some _ =>
    match s.checklists.find?
        (fun c => c.documentId == some documentId && c.userId == userId) with
    | none => .error .notFound
    | some c => .ok c.data

/-! ## DocumentsController (upload endpoint) -/

/-- Mimetypes accepted by the upload endpoint. -/
def allowedMimes : List String :=
  ["application/pdf", "text/csv", "application/vnd.ms-excel"]

/-- The regex `/\.(pdf|csv)$/i` applied to the (optional) original file
name: a case-insensitive `.pdf` or `.csv` suffix, computed on the
lower-cased character list. -/
def hasAllowedExt : Option String → Bool
  | none => false
  | some n =>
    List.isSuffixOf (".pdf".data) (n.data.map Char.toLower) ||
    List.isSuffixOf (".csv".data) (n.data.map Char.toLower)

/-- `DocumentsController.upload`: session and file must be present and the
file must have an allowed mimetype or an allowed extension, otherwise a
`BadRequestException` is thrown before the service runs; `session` is the
authenticated user id, if any. -/
def uploadController (session : Option String) (file : Option UploadedFile)
    (configured : Bool) (presign : String → String) (newId : String) :
    Except ApiError (List Effect × CreateResult) :=
  match session with
  | none => .error .badRequest
  | some userId =>
    match file with
    | none => .error .badRequest
    | some f =>
      if !(allowedMimes.contains f.mimetype) && !(hasAllowedExt f.originalname)
      then .error .badRequest
      else createAndEnqueue configured presign newId userId f

/-! ## The worker's job loop

The Python worker is an external collaborator of the analysed tree; its
steps below are modelled from the spec (sections 4.1, 5, 6 and 7): mark the
document `processing` (exiting without mutation when the row is absent or
the lifecycle has already left `pending`), generate the checklist, insert
the checklist row linked to the document (the `Checklist_documentId_key`
UNIQUE index forbids a second linked row), mark the document `done`; any
exception after the `processing` transition marks the document `failed`.
Payloads are delivered at least once, so delivery is modelled as drawing
an arbitrary element of everything ever pushed. -/

/-- Modelled from the spec: scalar extraction of the worker's
`insert_checklist` (spec section 6 — `orgao`/`objeto` from `data.edital`,
`valor_total` from `data.edital.totalReais` or `data.edital.valorTotal`,
`pontuacao` from `data.pontuacao`). -/
def workerScalars (data : Json) : Scalars :=
  let ed := jGet data "edital"
  { pontuacao := match jsNonNull (jGet data "pontuacao") with
      | some (.num n) => some n
      | _ => none
    orgao := jsNonNull (ed.bind (jGet · "orgao"))
    objeto := jsNonNull (ed.bind (jGet · "objeto"))
    valor_total := jsNonNull ((ed.bind (jGet · "totalReais")).or
      (ed.bind (jGet · "valorTotal"))) }

/-- Modelled from the spec: the checklist row the worker inserts for a job
(spec section 6) — linked to the job's document through the `documentId`
column. -/
def workerRow (p : JobPayload) (data : Json) (rowId : String) (now : Nat) :
    ChecklistRow :=
  let sc := workerScalars data
  { id := rowId
    userId := p.userId
    file_name := p.fileName.getD "document"
    data := data
    pontuacao := sc.pontuacao
    orgao := sc.orgao
    objeto := sc.objeto
    valor_total := sc.valor_total
    documentId := some p.documentId
    created_at := now }

/-- Labels of the atomic transitions of the system. -/
inductive Event where
  | upload (userId : String) (file : UploadedFile) (fileUrl newDocId : String)
  | deliver (i : Nat)
  | beginJob (i : Nat)
  | skipJob (i : Nat)
  | insertRow (i : Nat) (data : Json) (rowId : String) (now : Nat)
  | finishJob (i : Nat)
  | failJob (i : Nat)
  | apiGenerate (documentId userId fileName : String) (parsed : Json)
      (rowId : String) (now : Nat)
  | apiCreate (userId : String) (body : CreateBody) (rowId : String) (now : Nat)
  | apiDelete (id userId : String)

/-- The index of the worker job an event executes, if any. -/
def Event.jobIndex : Event → Option Nat
  | .beginJob i => some i
  | .skipJob i => some i
  | .insertRow i _ _ _ => some i
  | .finishJob i => some i
  | .failJob i => some i
  | _ => none

/-- A worker job that has written `processing` and not yet exited. -/
def WorkerJob.active (j : WorkerJob) : Prop :=
  j.phase = WorkerPhase.working ∨ j.phase = WorkerPhase.inserted

/-- Small-step semantics of the system.  API constructors follow the
NestJS services; worker constructors are modelled from the spec (see the
section comment above).  Freshness hypotheses reflect `randomUUID()` /
`cuid()` identifiers; only mutating calls appear (the read endpoints are
the pure functions above). -/
inductive Step : SysState → Event → SysState → Prop where
  | upload (s : SysState) (userId : String) (file : UploadedFile)
      (fileUrl newDocId : String)
      (hfresh : ∀ d ∈ s.documents, d.id ≠ newDocId) :
      Step s (.upload userId file fileUrl newDocId)
        { s with
          documents := s.documents ++
            [mkDocRow userId newDocId file
              (userId ++ "/" ++ newDocId ++ extOf file.originalname)]
          pushed := s.pushed ++ [mkPayload userId newDocId fileUrl file] }
  | deliver (s : SysState) (i : Nat) (p : JobPayload)
      (hp : s.pushed[i]? = some p) :
      Step s (.deliver i) { s with jobs := s.jobs ++ [⟨p, .started⟩] }
  | beginJob (s : SysState) (i : Nat) (p : JobPayload)
      (hj : s.jobs[i]? = some ⟨p, .started⟩)
      (hst : docStatus s p.documentId = some .pending) :
      Step s (.beginJob i)
        { s with
          documents := setStatus s.documents p.documentId .processing
          jobs := s.jobs.set i ⟨p, .working⟩ }
  | skipJob (s : SysState) (i : Nat) (p : JobPayload)
      (hj : s.jobs[i]? = some ⟨p, .started⟩)
      (hst : docStatus s p.documentId ≠ some .pending) :
      Step s (.skipJob i) { s with jobs := s.jobs.set i ⟨p, .finished⟩ }
  | insertRow (s : SysState) (i : Nat) (p : JobPayload) (data : Json)
      (rowId : String) (now : Nat)
      (hj : s.jobs[i]? = some ⟨p, .working⟩)
      (hfresh : ∀ c ∈ s.checklists, c.id ≠ rowId)
      (huniq : hasLinked s p.documentId = false) :
      Step s (.insertRow i data rowId now)
        { s with
          checklists := s.checklists ++ [workerRow p data rowId now]
          jobs := s.jobs.set i ⟨p, .inserted⟩ }
  | finishJob (s : SysState) (i : Nat) (p : JobPayload)
      (hj : s.jobs[i]? = some ⟨p, .inserted⟩) :
      Step s (.finishJob i)
        { s with
          documents := setStatus s.documents p.documentId .done
          jobs := s.jobs.set i ⟨p, .finished⟩ }
  | failJob (s : SysState) (i : Nat) (p : JobPayload) (ph : WorkerPhase)
      (hj : s.jobs[i]? = some ⟨p, ph⟩)
      (hph : ph = .working ∨ ph = .inserted) :
      Step s (.failJob i)
        { s with
          documents := setStatus s.documents p.documentId .failed
          jobs := s.jobs.set i ⟨p, .finished⟩ }
  | apiGenerate (s : SysState) (documentId userId fileName : String)
      (parsed : Json) (rowId : String) (now : Nat)
      (row : ChecklistRow) (cj : Json)
      (hfresh : ∀ c ∈ s.checklists, c.id ≠ rowId)
      (hgen : generate s documentId userId fileName (some parsed) rowId now =
        .ok (row, cj)) :
      Step s (.apiGenerate documentId userId fileName parsed rowId now)
        { s with checklists := s.checklists ++ [row] }
  | apiCreate (s : SysState) (userId : String) (body : CreateBody)
      (rowId : String) (now : Nat)
      (hfresh : ∀ c ∈ s.checklists, c.id ≠ rowId) :
      Step s (.apiCreate userId body rowId now)
        { s with
          checklists := s.checklists ++ [createChecklist userId body rowId now] }
  | apiDelete (s : SysState) (id userId : String) (l : List ChecklistRow)
      (hdel : deleteChecklist s id userId = .ok l) :
      Step s (.apiDelete id userId) { s with checklists := l }

/-- States reachable from the empty initial state. -/
inductive Reachable : SysState → Prop where
  | init : Reachable initState
  | step {s : SysState} {e : Event} {s' : SysState} :
      Reachable s → Step s e s' → Reachable s'

/-! ## Basic lemmas about the table primitives -/

theorem statusIn_append (l₁ l₂ : List DocumentRow) (id : String) :
    statusIn (l₁ ++ l₂) id = (statusIn l₁ id).or (statusIn l₂ id) := by
  unfold statusIn
  rw [List.find?_append]
  cases l₁.find? (fun d => d.id == id) <;> simp

theorem statusIn_of_isSome {l₁ : List DocumentRow} {id : String} {st : Status}
    (l₂ : List DocumentRow) (h : statusIn l₁ id = some st) :
    statusIn (l₁ ++ l₂) id = some st := by
  rw [statusIn_append, h]; rfl

theorem statusIn_fresh {l : List DocumentRow} {id : String}
    (h : ∀ d ∈ l, d.id ≠ id) : statusIn l id = none := by
  unfold statusIn
  have : l.find? (fun d => d.id == id) = none := by
    rw [List.find?_eq_none]
    intro d hd
    simpa using h d hd
  rw [this]; rfl

theorem statusIn_setStatus (docs : List DocumentRow) (pid : String)
    (st : Status) (id : String) :
    statusIn (setStatus docs pid st) id =
      if pid = id then (statusIn docs id).map (fun _ => st)
      else statusIn docs id := by
  induction docs with
  | nil => unfold statusIn setStatus; by_cases h : pid = id <;> simp [h]
  | cons d t ih =>
    unfold statusIn setStatus
    unfold statusIn setStatus at ih
    by_cases hdp : d.id = pid
    · by_cases hpi : pid = id
      · have hdi : d.id = id := hdp.trans hpi
        simp [List.find?_cons, hdp, hpi, hdi]
      · have hdi : ¬ d.id = id := fun h => hpi (hdp.symm.trans h)
        have hid : ¬ id = d.id := fun h => hdi h.symm
        have hip : ¬ id = pid := fun h => hpi h.symm
        simp [List.find?_cons, hdp, hdi, hpi, hid, hip] at ih ⊢
        simpa [hpi] using ih
    · by_cases hdi : d.id = id
      · have hpi : ¬ pid = id := fun h => hdp (hdi.trans h.symm)
        have hpd : ¬ pid = d.id := fun h => hdp h.symm
        have hip : ¬ id = pid := fun h => hpi h.symm
        simp [List.find?_cons, hdp, hdi, hpi, hpd, hip]
      · have hid : ¬ id = d.id := fun h => hdi h.symm
        have hpd : ¬ pid = d.id := fun h => hdp h.symm
        simp [List.find?_cons, hdp, hdi, hid, hpd] at ih ⊢
        exact ih

theorem setStatus_ids (docs : List DocumentRow) (pid : String) (st : Status) :
    (setStatus docs pid st).map (·.id) = docs.map (·.id) := by
  unfold setStatus
  rw [List.map_map]
  apply List.map_congr_left
  intro d _
  by_cases h : d.id = pid <;> simp [h]

theorem mem_setStatus_of_mem {docs : List DocumentRow} {d : DocumentRow}
    (pid : String) (st : Status) (h : d ∈ docs) :
    ∃ d' ∈ setStatus docs pid st, d'.id = d.id ∧ d'.userId = d.userId := by
  refine ⟨if d.id == pid then { d with status := st } else d, ?_, ?_⟩
  · exact List.mem_map_of_mem _ h
  · by_cases hdp : d.id = pid <;> simp [hdp]

theorem linkedCount_append (l₁ l₂ : List ChecklistRow) (docId : String) :
    (((l₁ ++ l₂).filter (fun c => c.documentId == some docId))).length =
      ((l₁.filter (fun c => c.documentId == some docId))).length +
      ((l₂.filter (fun c => c.documentId == some docId))).length := by
  rw [List.filter_append, List.length_append]

theorem linkedCount_eq_zero_of_not_hasLinked {s : SysState} {docId : String}
    (h : hasLinked s docId = false) : linkedCount s docId = 0 := by
  unfold hasLinked at h
  unfold linkedCount
  rw [List.length_eq_zero, List.filter_eq_nil_iff]
  rw [List.any_eq_false] at h
  exact h

theorem hasLinked_true_iff {s : SysState} {docId : String} :
    hasLinked s docId = true ↔
      ∃ c ∈ s.checklists, c.documentId = some docId := by
  unfold hasLinked
  rw [List.any_eq_true]
  constructor
  · rintro ⟨c, hc, hcd⟩; exact ⟨c, hc, by simpa using hcd⟩
  · rintro ⟨c, hc, hcd⟩; exact ⟨c, hc, by simpa using hcd⟩

theorem deleteChecklist_ok {s : SysState} {id u : String}
    {l : List ChecklistRow} (h : deleteChecklist s id u = .ok l) :
    l = s.checklists.eraseP (fun c => c.id == id) := by
  unfold deleteChecklist at h
  cases hf : s.checklists.find? (fun c => c.id == id && c.userId == u) with
  | none => rw [hf] at h; exact absurd h (by simp)
  | some c => rw [hf] at h; exact (Except.ok.injEq _ _ ▸ h).symm

theorem generate_ok {s : SysState} {documentId userId fileName : String}
    {parsed : Option Json} {newId : String} {now : Nat}
    {row : ChecklistRow} {cj : Json}
    (h : generate s documentId userId fileName parsed newId now = .ok (row, cj)) :
    ∃ doc, findDocument s documentId userId = some doc ∧
      doc.status = Status.done ∧ parsed = some cj ∧
      row = { id := newId
              userId := userId
              file_name := fileName
              data := cj
              pontuacao := (extractScalars cj).pontuacao
              orgao := (extractScalars cj).orgao
              objeto := (extractScalars cj).objeto
              valor_total := (extractScalars cj).valor_total
              documentId := none
              created_at := now } := by
  unfold generate at h
  split at h
  · exact absurd h (by simp)
  · rename_i doc hf
    split at h
    · exact absurd h (by simp)
    · rename_i hst
      cases parsed with
      | none => exact absurd h (by simp)
      | some checklist =>
        simp only [Except.ok.injEq, Prod.mk.injEq] at h
        refine ⟨doc, hf, by simpa using hst, ?_, ?_⟩
        · rw [h.2]
        · rw [← h.1, h.2]

/-! ## Inductive system invariant -/

theorem mem_of_get? {α : Type _} {l : List α} {i : Nat} {a : α}
    (h : l[i]? = some a) : a ∈ l := by
  obtain ⟨hl, rfl⟩ := List.getElem?_eq_some_iff.mp h
  exact List.getElem_mem hl

theorem get?_append_single {α : Type _} {l : List α} {a : α} {i : Nat}
    {x : α} (h : (l ++ [a])[i]? = some x) : l[i]? = some x ∨ x = a := by
  by_cases hi : i < l.length
  · left; rwa [List.getElem?_append_left hi] at h
  · right
    obtain ⟨hlen, hx⟩ := List.getElem?_eq_some_iff.mp h
    have hil : i = l.length := by
      simp only [List.length_append, List.length_singleton] at hlen
      omega
    subst hil
    rw [List.getElem?_concat_length] at h
    exact (Option.some.inj h).symm

theorem get?_set_cases {α : Type _} {l : List α} {i k : Nat} {a x : α}
    (h : (l.set i a)[k]? = some x) :
    (i = k ∧ x = a) ∨ (i ≠ k ∧ l[k]? = some x) := by
  by_cases hik : i = k
  · subst hik
    rw [List.getElem?_set] at h
    simp only [if_pos rfl] at h
    by_cases hlen : i < l.length
    · rw [if_pos hlen] at h
      exact Or.inl ⟨rfl, (Option.some.inj h).symm⟩
    · rw [if_neg hlen] at h
      exact absurd h (by simp)
  · right
    rw [List.getElem?_set_ne hik] at h
    exact ⟨hik, h⟩

/-- The inductive invariant of the reachable states: document primary keys
are distinct; a job past its `processing` write and not yet exited holds
its document in `processing`, exclusively; the UNIQUE index keeps at most
one checklist row per document; every job payload was pushed; pushed
payloads name an existing document of the same user; and every linked
checklist row belongs to the owner of its document. -/
structure Inv (s : SysState) : Prop where
  docIdsNodup : (s.documents.map (·.id)).Nodup
  activeProcessing : ∀ (i : Nat) (j : WorkerJob), s.jobs[i]? = some j →
    j.active → docStatus s j.payload.documentId = some Status.processing
  activeUnique : ∀ (i k : Nat) (j1 j2 : WorkerJob), s.jobs[i]? = some j1 →
    s.jobs[k]? = some j2 → j1.active → j2.active →
    j1.payload.documentId = j2.payload.documentId → i = k
  linkedUnique : ∀ docId, linkedCount s docId ≤ 1
  jobFromPushed : ∀ j ∈ s.jobs, j.payload ∈ s.pushed
  pushedOwner : ∀ p ∈ s.pushed, ∃ d ∈ s.documents,
    d.id = p.documentId ∧ d.userId = p.userId
  linkedOwner : ∀ c ∈ s.checklists, ∀ pid, c.documentId = some pid →
    ∃ d ∈ s.documents, d.id = pid ∧ d.userId = c.userId

theorem inv_init : Inv initState := by
  constructor <;> intros <;> simp_all [initState, linkedCount]

theorem inv_step {s : SysState} {e : Event} {s' : SysState}
    (inv : Inv s) (hst : Step s e s') : Inv s' := by
  cases hst with
  | upload userId file fileUrl newDocId hfresh =>
    refine ⟨?_, ?_, ?_, ?_, ?_, ?_, ?_⟩
    · simp only [List.map_append]
      rw [List.nodup_append]
      refine ⟨inv.docIdsNodup, by simp [mkDocRow], ?_⟩
      intro x hx hx2
      simp only [mkDocRow, List.map_cons, List.map_nil, List.mem_singleton] at hx2
      obtain ⟨d, hd, hdid⟩ := List.mem_map.mp hx
      exact hfresh d hd (hdid.trans hx2)
    · intro i j hj hact
      have := inv.activeProcessing i j hj hact
      exact statusIn_of_isSome _ this
    · exact inv.activeUnique
    · exact inv.linkedUnique
    · intro j hj
      exact List.mem_append_left _ (inv.jobFromPushed j hj)
    · intro p hp
      rcases List.mem_append.mp hp with hp | hp
      · obtain ⟨d, hd, h1, h2⟩ := inv.pushedOwner p hp
        exact ⟨d, List.mem_append_left _ hd, h1, h2⟩
      · rw [List.mem_singleton] at hp
        subst hp
        exact ⟨mkDocRow userId newDocId file
          (userId ++ "/" ++ newDocId ++ extOf file.originalname),
          List.mem_append_right _ (by simp), rfl, rfl⟩
    · intro c hc pid hcd
      obtain ⟨d, hd, h1, h2⟩ := inv.linkedOwner c hc pid hcd
      exact ⟨d, List.mem_append_left _ hd, h1, h2⟩
  | deliver i p hp =>
    refine ⟨inv.docIdsNodup, ?_, ?_, inv.linkedUnique, ?_, inv.pushedOwner,
      inv.linkedOwner⟩
    · intro k j hj hact
      rcases get?_append_single hj with hj | hj
      · exact inv.activeProcessing k j hj hact
      · subst hj
        rcases hact with h | h <;> exact absurd h (by simp)
    · intro k1 k2 j1 j2 h1 h2 ha1 ha2 heq
      rcases get?_append_single h1 with h1 | h1
      · rcases get?_append_single h2 with h2 | h2
        · exact inv.activeUnique k1 k2 j1 j2 h1 h2 ha1 ha2 heq
        · subst h2; rcases ha2 with h | h <;> exact absurd h (by simp)
      · subst h1; rcases ha1 with h | h <;> exact absurd h (by simp)
    · intro j hj
      rcases List.mem_append.mp hj with hj | hj
      · exact inv.jobFromPushed j hj
      · rw [List.mem_singleton] at hj
        subst hj
        exact mem_of_get? hp
  | beginJob i p hj hst0 =>
    have hilen : i < s.jobs.length := by
      obtain ⟨h, _⟩ := List.getElem?_eq_some_iff.mp hj
      exact h
    refine ⟨?_, ?_, ?_, inv.linkedUnique, ?_, ?_, ?_⟩
    · simpa [setStatus_ids] using inv.docIdsNodup
    · intro k j hjk hact
      rcases get?_set_cases hjk with ⟨hik, hja⟩ | ⟨hik, hjk⟩
      · subst hja
        show docStatus _ p.documentId = _
        unfold docStatus at hst0 ⊢
        simp [statusIn_setStatus, hst0]
      · have hold := inv.activeProcessing k j hjk hact
        have hne : p.documentId ≠ j.payload.documentId := by
          intro hcontra
          rw [← hcontra] at hold
          unfold docStatus at hold hst0
          rw [hst0] at hold
          exact absurd (Option.some.inj hold) (by simp)
        show docStatus _ _ = _
        unfold docStatus at hold ⊢
        simp only [statusIn_setStatus, if_neg hne]
        exact hold
    · intro k1 k2 j1 j2 h1 h2 ha1 ha2 heq
      rcases get?_set_cases h1 with ⟨hik, hja⟩ | ⟨hik, h1⟩ <;>
        rcases get?_set_cases h2 with ⟨hik2, hja2⟩ | ⟨hik2, h2⟩
      · omega
      · subst hja
        have hold := inv.activeProcessing k2 j2 h2 ha2
        simp only at heq
        rw [← heq] at hold
        unfold docStatus at hold hst0
        rw [hst0] at hold
        exact absurd (Option.some.inj hold) (by simp)
      · subst hja2
        have hold := inv.activeProcessing k1 j1 h1 ha1
        simp only at heq
        rw [heq] at hold
        unfold docStatus at hold hst0
        rw [hst0] at hold
        exact absurd (Option.some.inj hold) (by simp)
      · exact inv.activeUnique k1 k2 j1 j2 h1 h2 ha1 ha2 heq
    · intro j hjm
      rcases List.mem_or_eq_of_mem_set hjm with hjm | hjm
      · exact inv.jobFromPushed j hjm
      · subst hjm
        have hpp := inv.jobFromPushed _ (mem_of_get? hj)
        exact hpp
    · intro q hq
      obtain ⟨d, hd, h1, h2⟩ := inv.pushedOwner q hq
      obtain ⟨d', hd', hid, huid⟩ :=
        mem_setStatus_of_mem p.documentId Status.processing hd
      exact ⟨d', hd', hid.trans h1, huid.trans h2⟩
    · intro c hc pid hcd
      obtain ⟨d, hd, h1, h2⟩ := inv.linkedOwner c hc pid hcd
      obtain ⟨d', hd', hid, huid⟩ :=
        mem_setStatus_of_mem p.documentId Status.processing hd
      exact ⟨d', hd', hid.trans h1, huid.trans h2⟩
  | skipJob i p hj hst0 =>
    refine ⟨inv.docIdsNodup, ?_, ?_, inv.linkedUnique, ?_, inv.pushedOwner,
      inv.linkedOwner⟩
    · intro k j hjk hact
      rcases get?_set_cases hjk with ⟨hik, hja⟩ | ⟨hik, hjk⟩
      · subst hja
        rcases hact with h | h <;> exact absurd h (by simp)
      · exact inv.activeProcessing k j hjk hact
    · intro k1 k2 j1 j2 h1 h2 ha1 ha2 heq
      rcases get?_set_cases h1 with ⟨hik, hja⟩ | ⟨hik, h1⟩
      · subst hja; rcases ha1 with h | h <;> exact absurd h (by simp)
      · rcases get?_set_cases h2 with ⟨hik2, hja2⟩ | ⟨hik2, h2⟩
        · subst hja2; rcases ha2 with h | h <;> exact absurd h (by simp)
        · exact inv.activeUnique k1 k2 j1 j2 h1 h2 ha1 ha2 heq
    · intro j hjm
      rcases List.mem_or_eq_of_mem_set hjm with hjm | hjm
      · exact inv.jobFromPushed j hjm
      · subst hjm
        have hpp := inv.jobFromPushed _ (mem_of_get? hj)
        exact hpp
  | insertRow i p data rowId now hj hfresh huniq =>
    have hactI : (⟨p, WorkerPhase.working⟩ : WorkerJob).active := Or.inl rfl
    refine ⟨inv.docIdsNodup, ?_, ?_, ?_, ?_, inv.pushedOwner, ?_⟩
    · intro k j hjk hact
      rcases get?_set_cases hjk with ⟨hik, hja⟩ | ⟨hik, hjk⟩
      · subst hja
        have hpp := inv.activeProcessing i _ hj hactI
        exact hpp
      · exact inv.activeProcessing k j hjk hact
    · intro k1 k2 j1 j2 h1 h2 ha1 ha2 heq
      rcases get?_set_cases h1 with ⟨hik, hja⟩ | ⟨hik, h1⟩ <;>
        rcases get?_set_cases h2 with ⟨hik2, hja2⟩ | ⟨hik2, h2⟩
      · omega
      · subst hja
        exact absurd (inv.activeUnique i k2 _ j2 hj h2 hactI ha2 heq) hik2
      · subst hja2
        exact absurd (inv.activeUnique k1 i j1 _ h1 hj ha1 hactI heq)
          (fun h => hik h.symm)
      · exact inv.activeUnique k1 k2 j1 j2 h1 h2 ha1 ha2 heq
    · intro docId
      show linkedCount _ docId ≤ 1
      unfold linkedCount
      simp only [linkedCount_append]
      by_cases hdp : docId = p.documentId
      · subst hdp
        have h0 : linkedCount s p.documentId = 0 :=
          linkedCount_eq_zero_of_not_hasLinked huniq
        unfold linkedCount at h0
        rw [h0]
        simp [workerRow]
      · have hfalse : ((workerRow p data rowId now).documentId == some docId) = false := by
          simp [workerRow]
          exact fun h => hdp h.symm
        have : ((([workerRow p data rowId now]).filter
            (fun c => c.documentId == some docId))).length = 0 := by
          simp [List.filter_cons, hfalse]
        rw [this]
        have := inv.linkedUnique docId
        unfold linkedCount at this
        omega
    · intro j hjm
      rcases List.mem_or_eq_of_mem_set hjm with hjm | hjm
      · exact inv.jobFromPushed j hjm
      · subst hjm
        have hpp := inv.jobFromPushed _ (mem_of_get? hj)
        exact hpp
    · intro c hc pid hcd
      rcases List.mem_append.mp hc with hc | hc
      · exact inv.linkedOwner c hc pid hcd
      · rw [List.mem_singleton] at hc
        subst hc
        have hpid : pid = p.documentId := by
          have : (workerRow p data rowId now).documentId = some p.documentId := rfl
          rw [this] at hcd
          exact (Option.some.inj hcd).symm
        subst hpid
        have hpmem := inv.jobFromPushed _ (mem_of_get? hj)
        obtain ⟨d, hd, h1, h2⟩ := inv.pushedOwner p hpmem
        exact ⟨d, hd, h1, h2⟩
  | finishJob i p hj =>
    have hactI : (⟨p, WorkerPhase.inserted⟩ : WorkerJob).active := Or.inr rfl
    refine ⟨?_, ?_, ?_, inv.linkedUnique, ?_, ?_, ?_⟩
    · simpa [setStatus_ids] using inv.docIdsNodup
    · intro k j hjk hact
      rcases get?_set_cases hjk with ⟨hik, hja⟩ | ⟨hik, hjk⟩
      · subst hja
        rcases hact with h | h <;> exact absurd h (by simp)
      · have hold := inv.activeProcessing k j hjk hact
        have hne : p.documentId ≠ j.payload.documentId := by
          intro hcontra
          exact hik (inv.activeUnique i k _ j hj hjk hactI hact hcontra)
        show docStatus _ _ = _
        unfold docStatus at hold ⊢
        simp only [statusIn_setStatus, if_neg hne]
        exact hold
    · intro k1 k2 j1 j2 h1 h2 ha1 ha2 heq
      rcases get?_set_cases h1 with ⟨hik, hja⟩ | ⟨hik, h1⟩
      · subst hja; rcases ha1 with h | h <;> exact absurd h (by simp)
      · rcases get?_set_cases h2 with ⟨hik2, hja2⟩ | ⟨hik2, h2⟩
        · subst hja2; rcases ha2 with h | h <;> exact absurd h (by simp)
        · exact inv.activeUnique k1 k2 j1 j2 h1 h2 ha1 ha2 heq
    · intro j hjm
      rcases List.mem_or_eq_of_mem_set hjm with hjm | hjm
      · exact inv.jobFromPushed j hjm
      · subst hjm
        have hpp := inv.jobFromPushed _ (mem_of_get? hj)
        exact hpp
    · intro q hq
      obtain ⟨d, hd, h1, h2⟩ := inv.pushedOwner q hq
      obtain ⟨d', hd', hid, huid⟩ :=
        mem_setStatus_of_mem p.documentId Status.done hd
      exact ⟨d', hd', hid.trans h1, huid.trans h2⟩
    · intro c hc pid hcd
      obtain ⟨d, hd, h1, h2⟩ := inv.linkedOwner c hc pid hcd
      obtain ⟨d', hd', hid, huid⟩ :=
        mem_setStatus_of_mem p.documentId Status.done hd
      exact ⟨d', hd', hid.trans h1, huid.trans h2⟩
  | failJob i p ph hj hph =>
    have hactI : (⟨p, ph⟩ : WorkerJob).active := hph
    refine ⟨?_, ?_, ?_, inv.linkedUnique, ?_, ?_, ?_⟩
    · simpa [setStatus_ids] using inv.docIdsNodup
    · intro k j hjk hact
      rcases get?_set_cases hjk with ⟨hik, hja⟩ | ⟨hik, hjk⟩
      · subst hja
        rcases hact with h | h <;> exact absurd h (by simp)
      · have hold := inv.activeProcessing k j hjk hact
        have hne : p.documentId ≠ j.payload.documentId := by
          intro hcontra
          exact hik (inv.activeUnique i k _ j hj hjk hactI hact hcontra)
        show docStatus _ _ = _
        unfold docStatus at hold ⊢
        simp only [statusIn_setStatus, if_neg hne]
        exact hold
    · intro k1 k2 j1 j2 h1 h2 ha1 ha2 heq
      rcases get?_set_cases h1 with ⟨hik, hja⟩ | ⟨hik, h1⟩
      · subst hja; rcases ha1 with h | h <;> exact absurd h (by simp)
      · rcases get?_set_cases h2 with ⟨hik2, hja2⟩ | ⟨hik2, h2⟩
        · subst hja2; rcases ha2 with h | h <;> exact absurd h (by simp)
        · exact inv.activeUnique k1 k2 j1 j2 h1 h2 ha1 ha2 heq
    · intro j hjm
      rcases List.mem_or_eq_of_mem_set hjm with hjm | hjm
      · exact inv.jobFromPushed j hjm
      · subst hjm
        have hpp := inv.jobFromPushed _ (mem_of_get? hj)
        exact hpp
    · intro q hq
      obtain ⟨d, hd, h1, h2⟩ := inv.pushedOwner q hq
      obtain ⟨d', hd', hid, huid⟩ :=
        mem_setStatus_of_mem p.documentId Status.failed hd
      exact ⟨d', hd', hid.trans h1, huid.trans h2⟩
    · intro c hc pid hcd
      obtain ⟨d, hd, h1, h2⟩ := inv.linkedOwner c hc pid hcd
      obtain ⟨d', hd', hid, huid⟩ :=
        mem_setStatus_of_mem p.documentId Status.failed hd
      exact ⟨d', hd', hid.trans h1, huid.trans h2⟩
  | apiGenerate documentId userId fileName parsed rowId now row cj hfresh hgen =>
    obtain ⟨doc, hfd, hdone, hpars, hrow⟩ := generate_ok hgen
    have hnone : row.documentId = none := by rw [hrow]
    refine ⟨inv.docIdsNodup, inv.activeProcessing, inv.activeUnique, ?_,
      inv.jobFromPushed, inv.pushedOwner, ?_⟩
    · intro docId
      show linkedCount _ docId ≤ 1
      unfold linkedCount
      simp only [linkedCount_append]
      have : (([row]).filter (fun c => c.documentId == some docId)).length = 0 := by
        simp [hnone]
      rw [this]
      have := inv.linkedUnique docId
      unfold linkedCount at this
      omega
    · intro c hc pid hcd
      rcases List.mem_append.mp hc with hc | hc
      · exact inv.linkedOwner c hc pid hcd
      · rw [List.mem_singleton] at hc
        subst hc
        rw [hnone] at hcd
        exact absurd hcd (by simp)
  | apiCreate userId body rowId now hfresh =>
    refine ⟨inv.docIdsNodup, inv.activeProcessing, inv.activeUnique, ?_,
      inv.jobFromPushed, inv.pushedOwner, ?_⟩
    · intro docId
      show linkedCount _ docId ≤ 1
      unfold linkedCount
      simp only [linkedCount_append]
      have : (([createChecklist userId body rowId now]).filter
          (fun c => c.documentId == some docId)).length = 0 := by
        simp [createChecklist]
      rw [this]
      have := inv.linkedUnique docId
      unfold linkedCount at this
      omega
    · intro c hc pid hcd
      rcases List.mem_append.mp hc with hc | hc
      · exact inv.linkedOwner c hc pid hcd
      · rw [List.mem_singleton] at hc
        subst hc
        exact absurd hcd (by simp [createChecklist])
  | apiDelete id userId l hdel =>
    have hl : l = s.checklists.eraseP (fun c => c.id == id) :=
      deleteChecklist_ok hdel
    refine ⟨inv.docIdsNodup, inv.activeProcessing, inv.activeUnique, ?_,
      inv.jobFromPushed, inv.pushedOwner, ?_⟩
    · intro docId
      show ((l.filter (fun c => c.documentId == some docId))).length ≤ 1
      have hsub : l.Sublist s.checklists := hl ▸ List.eraseP_sublist _
      have h1 := (hsub.filter (fun c => c.documentId == some docId)).length_le
      have hold := inv.linkedUnique docId
      unfold linkedCount at hold
      omega
    · intro c hc pid hcd
      rw [hl] at hc
      exact inv.linkedOwner c (List.mem_of_mem_eraseP hc) pid hcd

theorem reachable_inv {s : SysState} (h : Reachable s) : Inv s := by
  induction h with
  | init => exact inv_init
  | step _ hst ih => exact inv_step ih hst

/-! ## Concrete sample data used by the code-evaluation theorems -/

/-- A state holding one `done` document owned by user u1. -/
def sDoneState : SysState :=
  { documents := [{ id := "d1", userId := "u1", file_name := "edital.pdf",
                    status := Status.done, storageKey := some "u1/d1.pdf" }]
    checklists := []
    pushed := []
    jobs := [] }

/-- A well-formed checklist as the LLM is prompted to produce. -/
def sampleChecklist : Json :=
  .obj [("edital", .obj [("orgao", .str "Prefeitura Municipal"),
                         ("objeto", .str "Objeto do certame"),
                         ("valorTotal", .str "R$ 1.000,00")]),
        ("participacao", .obj [("permiteConsorcio", .bool false)]),
        ("prazos", .obj []),
        ("visitaTecnica", .bool false),
        ("documentos", .arr []),
        ("pontuacao", .num 72),
        ("recomendacao", .str "Recomendado")]

/-- Modelled from the spec: the checklist JSON schema (the system prompt's
expected structure and the spec's schema contract) requires a JSON object
with the top-level keys of the checklist; the source instantiates an Ajv
validator but never compiles or applies a schema, so the schema itself is
reconstructed from the prompt. -/
def checklistShapeOk (j : Json) : Bool :=
  match j with
  | .obj fs =>
    (["edital", "participacao", "prazos", "visitaTecnica", "documentos",
      "pontuacao", "recomendacao"]).all (fun k => (lookupField fs k).isSome)
  | _ => false

/-! ## C1: checklist rows persisted by the API are not linked -/

/-- C1: the claim states that every checklist-persisting operation links
the inserted row to its document (`documentId = d.id`, never null).  The
API code contradicts this: `ChecklistsService.generate` run on a `done`
document inserts a row whose `documentId` is null, and
`ChecklistsService.create` likewise never sets `documentId`.  This theorem
evaluates both code paths. -/
theorem c1_generate_and_create_unlinked :
    (∃ row cj, generate sDoneState "d1" "u1" "edital.pdf"
        (some sampleChecklist) "c1" 1 = .ok (row, cj) ∧
      row.documentId = none ∧ row.documentId ≠ some "d1") ∧
    (∀ (userId : String) (body : CreateBody) (newId : String) (now : Nat),
      (createChecklist userId body newId now).documentId = none) := by
  exact ⟨⟨_, _, rfl, rfl, by simp⟩, fun _ _ _ _ => rfl⟩

/-! ## C3: no schema validation of the LLM output -/

/-- C3: the claim states every LLM response is parsed and schema-validated,
with validation failure fatal (nothing persisted).  The code only runs
`JSON.parse`; the Ajv instance is never used.  Evaluating `generate` on the
schema-violating output `[]` (a JSON array): the operation succeeds and the
row is persisted with `data = []`. -/
theorem c3_schema_violation_persisted :
    checklistShapeOk (Json.arr []) = false ∧
    (∃ row, generate sDoneState "d1" "u1" "edital.pdf"
        (some (Json.arr [])) "c3" 1 = .ok (row, Json.arr []) ∧
      row.data = Json.arr []) := by
  exact ⟨rfl, ⟨_, rfl, rfl⟩⟩

/-! ## C6: shape of a successful upload -/

/-- C6: a successful `createAndEnqueue` performs exactly one storage
upload, creates exactly one Document row — with status `pending` and the
fresh id — and pushes exactly one payload onto `document:ingest` carrying
`documentId` equal to the created row's id, the caller's `userId`, and a
`fileUrl` that is the presigned download URL of the stored object; the
call returns `{documentId, status: 'pending'}`. -/
theorem c6_upload_effects (configured : Bool) (presign : String → String)
    (newId userId : String) (file : UploadedFile)
    (eff : List Effect) (res : CreateResult)
    (h : createAndEnqueue configured presign newId userId file =
      .ok (eff, res)) :
    ∃ key row payload,
      eff = [Effect.storageUpload key, Effect.docCreate row,
             Effect.queuePush DOCUMENT_INGEST_QUEUE payload] ∧
      eff.countP (fun e => match e with | .docCreate _ => true | _ => false)
        = 1 ∧
      eff.countP (fun e => match e with | .queuePush _ _ => true | _ => false)
        = 1 ∧
      row.status = Status.pending ∧ row.id = newId ∧ row.userId = userId ∧
      row.storageKey = some key ∧
      payload.documentId = row.id ∧ payload.userId = userId ∧
      payload.fileUrl = presign key ∧
      res = { documentId := newId, status := "pending" } := by
  cases configured with
  | false => exact absurd h (by simp [createAndEnqueue])
  | true =>
    simp only [createAndEnqueue, Bool.not_true, Bool.false_eq_true, if_false,
      Except.ok.injEq, Prod.mk.injEq] at h
    obtain ⟨heff, hres⟩ := h
    subst heff
    subst hres
    exact ⟨userId ++ "/" ++ newId ++ extOf file.originalname, _, _,
      rfl, rfl, rfl, rfl, rfl, rfl, rfl, rfl, rfl, rfl, rfl⟩

/-- The concrete outcome used by the C6 witness. -/
def c6File : UploadedFile := ⟨some "edital.pdf", "application/pdf"⟩

/-- A concrete presigner for the C6 witness. -/
def c6Presign : String → String := fun k => "minio/" ++ k

/-- The storage key of the C6 witness upload. -/
def c6Key : String := "u1" ++ "/" ++ "d1" ++ extOf c6File.originalname

/-- The effect list of the C6 witness upload. -/
def c6Eff : List Effect :=
  [Effect.storageUpload c6Key,
   Effect.docCreate (mkDocRow "u1" "d1" c6File c6Key),
   Effect.queuePush DOCUMENT_INGEST_QUEUE
     (mkPayload "u1" "d1" (c6Presign c6Key) c6File)]

/-- Witness for C6 at a concrete successful upload. -/
theorem c6_upload_effects_witness :
    ∃ key row payload,
      c6Eff = [Effect.storageUpload key, Effect.docCreate row,
               Effect.queuePush DOCUMENT_INGEST_QUEUE payload] ∧
      c6Eff.countP (fun e => match e with | .docCreate _ => true | _ => false)
        = 1 ∧
      c6Eff.countP (fun e => match e with | .queuePush _ _ => true | _ => false)
        = 1 ∧
      row.status = Status.pending ∧ row.id = "d1" ∧ row.userId = "u1" ∧
      row.storageKey = some key ∧
      payload.documentId = row.id ∧ payload.userId = "u1" ∧
      payload.fileUrl = c6Presign key ∧
      ({ documentId := "d1", status := "pending" } : CreateResult) =
        { documentId := "d1", status := "pending" } :=
  c6_upload_effects true c6Presign "d1" "u1" c6File c6Eff
    { documentId := "d1", status := "pending" } rfl

/-! ## C9: upload endpoint input validation -/

/-- C9: the upload endpoint rejects — with `BadRequestException`, before
any storage write, Document creation or queue push — every request with a
missing session or file, and every file that has neither an allowed
mimetype nor a `.pdf`/`.csv` (case-insensitive) file name; no state is
mutated in these cases (the error return carries no effects). -/
theorem c9_upload_rejection (session : Option String)
    (file : Option UploadedFile) (configured : Bool)
    (presign : String → String) (newId : String)
    (h : session = none ∨ file = none ∨
      ∃ f, file = some f ∧ f.mimetype ∉ allowedMimes ∧
        hasAllowedExt f.originalname = false) :
    uploadController session file configured presign newId =
      .error ApiError.badRequest := by
  rcases h with h | h | ⟨f, hf, hm, he⟩
  · subst h; rfl
  · subst h; cases session <;> rfl
  · subst hf
    cases session with
    | none => rfl
    | some u =>
      have hm' : allowedMimes.contains f.mimetype = false := by
        rw [← Bool.not_eq_true]
        intro hc
        exact hm (List.elem_iff.mp hc)
      show (if (!(allowedMimes.contains f.mimetype) &&
          !(hasAllowedExt f.originalname)) = true then _ else _) = _
      rw [hm', he]
      rfl

/-- Witness for C9: an upload with a `.txt` text file is rejected. -/
theorem c9_upload_rejection_witness :
    uploadController (some "u1") (some ⟨some "notes.txt", "text/plain"⟩)
      true (fun k => "minio/" ++ k) "d9" = .error ApiError.badRequest :=
  c9_upload_rejection (some "u1") (some ⟨some "notes.txt", "text/plain"⟩)
    true (fun k => "minio/" ++ k) "d9"
    (Or.inr (Or.inr ⟨⟨some "notes.txt", "text/plain"⟩, rfl,
      by decide, by decide⟩))

/-! ## C10: characterisation of getChecklistForDocument -/

/-- C10: `getChecklistForDocument(documentId, userId)` returns the stored
checklist data exactly when both a Document row with that id owned by the
user and a Checklist row whose `documentId` column references it owned by
the user exist; in every other case it throws `NotFoundException` (the
operation reads only, so no state changes).  In particular a `done`
document whose checklist was persisted without the `documentId` link makes
the call fail. -/
theorem c10_get_checklist_characterisation (s : SysState)
    (documentId userId : String) :
    ((∃ j, getChecklistForDocument s documentId userId = .ok j) ↔
      ((∃ d ∈ s.documents, d.id = documentId ∧ d.userId = userId) ∧
       (∃ c ∈ s.checklists, c.documentId = some documentId ∧
         c.userId = userId))) ∧
    (∀ j, getChecklistForDocument s documentId userId = .ok j →
      ∃ c ∈ s.checklists, c.documentId = some documentId ∧
        c.userId = userId ∧ c.data = j) ∧
    (¬ ((∃ d ∈ s.documents, d.id = documentId ∧ d.userId = userId) ∧
        (∃ c ∈ s.checklists, c.documentId = some documentId ∧
          c.userId = userId)) →
      getChecklistForDocument s documentId userId =
        .error ApiError.notFound) := by
  cases hfd : findDocument s documentId userId with
  | none =>
    have hnd : ¬ ∃ d ∈ s.documents, d.id = documentId ∧ d.userId = userId := by
      rintro ⟨d, hd, h1, h2⟩
      unfold findDocument at hfd
      rw [List.find?_eq_none] at hfd
      exact hfd d hd (by simp [h1, h2])
    refine ⟨⟨?_, ?_⟩, ?_, ?_⟩
    · rintro ⟨j, hj⟩
      simp only [getChecklistForDocument, hfd] at hj
      exact Except.noConfusion hj
    · rintro ⟨hd, _⟩
      exact absurd hd hnd
    · intro j hj
      simp only [getChecklistForDocument, hfd] at hj
      exact Except.noConfusion hj
    · intro _
      simp only [getChecklistForDocument, hfd]
  | some d0 =>
    have hd0m : d0 ∈ s.documents := by
      unfold findDocument at hfd
      exact List.mem_of_find?_eq_some hfd
    have hd0p : d0.id = documentId ∧ d0.userId = userId := by
      unfold findDocument at hfd
      have := List.find?_some hfd
      simpa using this
    cases hfc : s.checklists.find?
        (fun c => c.documentId == some documentId && c.userId == userId) with
    | none =>
      have hnc : ¬ ∃ c ∈ s.checklists, c.documentId = some documentId ∧
          c.userId = userId := by
        rintro ⟨c, hc, h1, h2⟩
        rw [List.find?_eq_none] at hfc
        exact hfc c hc (by simp [h1, h2])
      refine ⟨⟨?_, ?_⟩, ?_, ?_⟩
      · rintro ⟨j, hj⟩
        simp only [getChecklistForDocument, hfd, hfc] at hj
        exact Except.noConfusion hj
      · rintro ⟨_, hc⟩
        exact absurd hc hnc
      · intro j hj
        simp only [getChecklistForDocument, hfd, hfc] at hj
        exact Except.noConfusion hj
      · intro _
        simp only [getChecklistForDocument, hfd, hfc]
    | some c0 =>
      have hc0m : c0 ∈ s.checklists := List.mem_of_find?_eq_some hfc
      have hc0p : c0.documentId = some documentId ∧ c0.userId = userId := by
        have := List.find?_some hfc
        simpa using this
      refine ⟨⟨?_, ?_⟩, ?_, ?_⟩
      · intro _
        exact ⟨⟨d0, hd0m, hd0p⟩, ⟨c0, hc0m, hc0p⟩⟩
      · intro _
        refine ⟨c0.data, ?_⟩
        simp only [getChecklistForDocument, hfd, hfc]
      · intro j hj
        simp only [getChecklistForDocument, hfd, hfc, Except.ok.injEq] at hj
        exact ⟨c0, hc0m, hc0p.1, hc0p.2, hj⟩
      · intro hcon
        exact absurd ⟨⟨d0, hd0m, hd0p⟩, ⟨c0, hc0m, hc0p⟩⟩ hcon

/-- Witness for C10 exercising the negative direction at the claim's
highlighted scenario: a done document whose checklist row was persisted
without the `documentId` link (as `generate` persists it) is reported
not found. -/
theorem c10_get_checklist_characterisation_witness :
    getChecklistForDocument
      { documents := [{ id := "d1", userId := "u1", file_name := "e.pdf",
                        status := Status.done, storageKey := none }]
        checklists := [{ id := "c1", userId := "u1", file_name := "e.pdf",
                         data := Json.obj [], pontuacao := none,
                         orgao := none, objeto := none, valor_total := none,
                         documentId := none, created_at := 3 }]
        pushed := []
        jobs := [] } "d1" "u1" = .error ApiError.notFound :=
  (c10_get_checklist_characterisation _ "d1" "u1").2.2
    (by
      rintro ⟨-, ⟨c, hc, hdoc, -⟩⟩
      simp only [List.mem_singleton] at hc
      subst hc
      exact absurd hdoc (by simp))

/-! ## C7: scalar column extraction -/

theorem jsNonNull_eq_some {o : Option Json} {v : Json} :
    jsNonNull o = some v ↔ o = some v ∧ v ≠ Json.null := by
  cases o with
  | none => simp [jsNonNull]
  | some x => cases x <;> simp [jsNonNull] <;> aesop

/-- The scalar extraction as the claim words it (refinement reference,
following the spec's "data.edital.orgao/objeto/totalReais|valorTotal and
data.pontuacao; each column null exactly when the field is absent"): to be
compared against `extractScalars`, the extraction the code performs. -/
def specExtractScalars (data : Json) : Scalars :=
  let ed := jGet data "edital"
  { pontuacao := match jGet data "pontuacao" with
      | some (.num n) => some n
      | _ => none
    orgao := ed.bind (jGet · "orgao")
    objeto := ed.bind (jGet · "objeto")
    valor_total := (ed.bind (jGet · "totalReais")).or
      (ed.bind (jGet · "valorTotal")) }

/-- A checklist whose `edital` carries `totalReais` but no `valorTotal`. -/
def c7Json : Json :=
  .obj [("edital", .obj [("totalReais", .str "1.234,56")])]

/-- C7 counterexample: the claim says `valor_total` is extracted from
`data.edital.totalReais` or `data.edital.valorTotal`; the code
(`ChecklistsService.generate`) reads only `valorTotal`, so on a checklist
carrying `totalReais` alone the code stores NULL while the claim demands
the value — the code's extraction differs from the claim's. -/
theorem c7_totalReais_counterexample :
    (extractScalars c7Json).valor_total = none ∧
    (specExtractScalars c7Json).valor_total = some (Json.str "1.234,56") ∧
    extractScalars c7Json ≠ specExtractScalars c7Json := by
  refine ⟨rfl, rfl, fun h => ?_⟩
  have := congrArg Scalars.valor_total h
  simp only [show (extractScalars c7Json).valor_total = none from rfl,
    show (specExtractScalars c7Json).valor_total =
      some (Json.str "1.234,56") from rfl] at this
  exact Option.noConfusion this

/-- C7 amended: in the code's extraction, `orgao`, `objeto` and
`valor_total` come from `data.edital.orgao`, `data.edital.objeto` and
`data.edital.valorTotal` respectively (`totalReais` is not consulted), and
each column is null exactly when the field is absent or JSON null;
`pontuacao` comes from `data.pontuacao` and is null exactly when that
field is not a number. -/
theorem c7_extraction_characterisation (d : Json) :
    (∀ v, (extractScalars d).orgao = some v ↔
      ((jGet d "edital").bind (jGet · "orgao") = some v ∧ v ≠ Json.null)) ∧
    (∀ v, (extractScalars d).objeto = some v ↔
      ((jGet d "edital").bind (jGet · "objeto") = some v ∧ v ≠ Json.null)) ∧
    (∀ v, (extractScalars d).valor_total = some v ↔
      ((jGet d "edital").bind (jGet · "valorTotal") = some v ∧
        v ≠ Json.null)) ∧
    (∀ n, (extractScalars d).pontuacao = some n ↔
      jGet d "pontuacao" = some (Json.num n)) := by
  refine ⟨fun v => ?_, fun v => ?_, fun v => ?_, fun n => ?_⟩
  · show jsNonNull ((jGet d "edital").bind (jGet · "orgao")) = some v ↔ _
    exact jsNonNull_eq_some
  · show jsNonNull ((jGet d "edital").bind (jGet · "objeto")) = some v ↔ _
    exact jsNonNull_eq_some
  · show jsNonNull ((jGet d "edital").bind (jGet · "valorTotal")) = some v ↔ _
    exact jsNonNull_eq_some
  · show (match jsNonNull (jGet d "pontuacao") with
      | some (.num n) => some n
      | _ => none) = some n ↔ _
    cases ho : jGet d "pontuacao" with
    | none => simp [jsNonNull]
    | some x => cases x <;> simp [jsNonNull]

/-! ## C8: user scoping of reads, generate and delete -/

/-- The checklist rows owned by a user. -/
def userChecklists (s : SysState) (u : String) : List ChecklistRow :=
  s.checklists.filter (fun c => c.userId == u)

/-- The document rows owned by a user. -/
def userDocuments (s : SysState) (u : String) : List DocumentRow :=
  s.documents.filter (fun d => d.userId == u)

theorem find?_and_filter {α : Type _} (l : List α) (p q : α → Bool) :
    l.find? (fun x => p x && q x) =
      (l.filter q).find? (fun x => p x && q x) := by
  induction l with
  | nil => rfl
  | cons x t ih =>
    by_cases hq : q x = true
    · by_cases hp : p x = true
      · simp [List.find?_cons, List.filter_cons, hq, hp]
      · simp [List.find?_cons, List.filter_cons, hq, hp, ih]
    · have hpq : (p x && q x) = false := by
        simp [hq]
      simp [List.find?_cons, List.filter_cons, hq, hpq, ih]

theorem find?_id_user {l l₂ : List ChecklistRow} {u : String}
    (h : l.filter (fun c => c.userId == u) =
      l₂.filter (fun c => c.userId == u)) (id : String) :
    l.find? (fun c => c.id == id && c.userId == u) =
      l₂.find? (fun c => c.id == id && c.userId == u) := by
  rw [find?_and_filter l (fun c => c.id == id) (fun c => c.userId == u),
    find?_and_filter l₂ (fun c => c.id == id) (fun c => c.userId == u), h]

theorem find?_docid_user {l l₂ : List ChecklistRow} {u : String}
    (h : l.filter (fun c => c.userId == u) =
      l₂.filter (fun c => c.userId == u)) (documentId : String) :
    l.find? (fun c => c.documentId == some documentId && c.userId == u) =
      l₂.find? (fun c => c.documentId == some documentId && c.userId == u) := by
  rw [find?_and_filter l (fun c => c.documentId == some documentId)
      (fun c => c.userId == u),
    find?_and_filter l₂ (fun c => c.documentId == some documentId)
      (fun c => c.userId == u), h]

theorem findDocument_scoped {s s₂ : SysState} {u : String}
    (h : userDocuments s u = userDocuments s₂ u) (id : String) :
    findDocument s id u = findDocument s₂ id u := by
  unfold userDocuments at h
  unfold findDocument
  rw [find?_and_filter s.documents (fun d => d.id == id)
      (fun d => d.userId == u),
    find?_and_filter s₂.documents (fun d => d.id == id)
      (fun d => d.userId == u), h]

theorem mem_insertDesc {x c : ChecklistRow} {l : List ChecklistRow}
    (h : x ∈ insertDesc c l) : x = c ∨ x ∈ l := by
  induction l with
  | nil => simpa [insertDesc] using h
  | cons a t ih =>
    unfold insertDesc at h
    by_cases hlt : a.created_at < c.created_at
    · rw [if_pos hlt] at h
      rcases List.mem_cons.mp h with h | h
      · exact Or.inl h
      · rcases List.mem_cons.mp h with h | h
        · exact Or.inr (by simp [h])
        · exact Or.inr (List.mem_cons_of_mem _ h)
    · rw [if_neg hlt] at h
      rcases List.mem_cons.mp h with h | h
      · exact Or.inr (by simp [h])
      · rcases ih h with h | h
        · exact Or.inl h
        · exact Or.inr (List.mem_cons_of_mem _ h)

theorem mem_sortByCreatedDesc {x : ChecklistRow} {l : List ChecklistRow}
    (h : x ∈ sortByCreatedDesc l) : x ∈ l := by
  induction l with
  | nil => simp [sortByCreatedDesc] at h
  | cons a t ih =>
    have h' : x ∈ insertDesc a (sortByCreatedDesc t) := h
    rcases mem_insertDesc h' with h2 | h2
    · simp [h2]
    · exact List.mem_cons_of_mem _ (ih h2)

theorem deleteChecklist_ok_found {s : SysState} {id u : String}
    {l : List ChecklistRow} (h : deleteChecklist s id u = .ok l) :
    ∃ c0, s.checklists.find? (fun c => c.id == id && c.userId == u) =
      some c0 := by
  unfold deleteChecklist at h
  cases hf : s.checklists.find? (fun c => c.id == id && c.userId == u) with
  | none => rw [hf] at h; exact absurd h (by simp)
  | some c0 => exact ⟨c0, rfl⟩

/-- C8: every checklist/document operation is scoped to the requesting
user: `findAll` returns only the user's rows; `findOne`, `delete`,
`getStatus`, `getChecklistForDocument` and `generate` report rows of other
users as not found; a successful `delete` removes none of the other users'
rows; and the outcome of every one of these operations depends only on the
rows owned by the requesting user (noninterference). -/
theorem c8_user_scoping (s s₂ : SysState) (u : String) :
    (∀ c ∈ findAll s u, c.userId = u) ∧
    (∀ id, (∀ c ∈ s.checklists, c.id = id → c.userId ≠ u) →
      findOne s id u = .error ApiError.notFound ∧
      deleteChecklist s id u = .error ApiError.notFound) ∧
    (∀ id, (∀ d ∈ s.documents, d.id = id → d.userId ≠ u) →
      getStatus s id u = .error ApiError.notFound ∧
      getChecklistForDocument s id u = .error ApiError.notFound ∧
      (∀ fn parsed rid now, generate s id u fn parsed rid now =
        .error ApiError.notFound)) ∧
    ((s.checklists.map (·.id)).Nodup →
      ∀ id l, deleteChecklist s id u = .ok l →
        ∀ c ∈ s.checklists, c.userId ≠ u → c ∈ l) ∧
    (userChecklists s u = userChecklists s₂ u →
     userDocuments s u = userDocuments s₂ u →
      findAll s u = findAll s₂ u ∧
      (∀ id, findOne s id u = findOne s₂ id u) ∧
      (∀ id, getStatus s id u = getStatus s₂ id u) ∧
      (∀ id, getChecklistForDocument s id u =
        getChecklistForDocument s₂ id u) ∧
      (∀ id fn parsed rid now, generate s id u fn parsed rid now =
        generate s₂ id u fn parsed rid now)) := by
  refine ⟨?_, ?_, ?_, ?_, ?_⟩
  · intro c hc
    have hm := mem_sortByCreatedDesc hc
    have := List.of_mem_filter hm
    simpa using this
  · intro id hyp
    have hnone : s.checklists.find?
        (fun c => c.id == id && c.userId == u) = none := by
      rw [List.find?_eq_none]
      intro c hc
      simp only [Bool.and_eq_true, beq_iff_eq, not_and]
      intro h1
      exact hyp c hc h1
    constructor
    · simp only [findOne, hnone]
    · simp only [deleteChecklist, hnone]
  · intro id hyp
    have hnone : findDocument s id u = none := by
      unfold findDocument
      rw [List.find?_eq_none]
      intro d hd
      simp only [Bool.and_eq_true, beq_iff_eq, not_and]
      intro h1
      exact hyp d hd h1
    refine ⟨?_, ?_, ?_⟩
    · simp only [getStatus, hnone]
    · simp only [getChecklistForDocument, hnone]
    · intro fn parsed rid now
      simp only [generate, hnone]
  · intro hnodup id l hdel c hc hcu
    obtain ⟨c0, hc0⟩ := deleteChecklist_ok_found hdel
    have hc0m := List.mem_of_find?_eq_some hc0
    have hc0p : c0.id = id ∧ c0.userId = u := by
      have := List.find?_some hc0
      simpa using this
    have hl := deleteChecklist_ok hdel
    subst hl
    have hcid : ¬ (c.id == id) = true := by
      simp only [beq_iff_eq]
      intro hcid
      have : c = c0 := List.inj_on_of_nodup_map hnodup hc hc0m
        (by rw [hcid, hc0p.1])
      subst this
      exact hcu hc0p.2
    exact (@List.mem_eraseP_of_neg _ (fun c => c.id == id) c s.checklists hcid).mpr hc
  · intro hC hD
    unfold userChecklists at hC
    refine ⟨?_, ?_, ?_, ?_, ?_⟩
    · show sortByCreatedDesc _ = sortByCreatedDesc _
      rw [hC]
    · intro id
      simp only [findOne]
      rw [find?_id_user hC id]
    · intro id
      simp only [getStatus]
      rw [findDocument_scoped hD id]
    · intro id
      simp only [getChecklistForDocument]
      rw [findDocument_scoped hD id, find?_docid_user hC id]
    · intro id fn parsed rid now
      simp only [generate]
      rw [findDocument_scoped hD id]

/-- A state holding a checklist row and a document owned by user u2,
used to witness C8 from the perspective of user u1. -/
def c8State : SysState :=
  { documents := [{ id := "dx", userId := "u2", file_name := "x.pdf",
                    status := Status.done, storageKey := none }]
    checklists := [{ id := "cx", userId := "u2", file_name := "x.pdf",
                     data := Json.obj [], pontuacao := none, orgao := none,
                     objeto := none, valor_total := none,
                     documentId := some "dx", created_at := 1 }]
    pushed := []
    jobs := [] }

/-- Witness for C8: u1 cannot see or delete u2's checklist, u2's document
is not found for u1, and u1's view of `c8State` agrees with the view of
the empty state. -/
theorem c8_user_scoping_witness :
    (findOne c8State "cx" "u1" = .error ApiError.notFound ∧
     deleteChecklist c8State "cx" "u1" = .error ApiError.notFound) ∧
    (getStatus c8State "dx" "u1" = .error ApiError.notFound ∧
     getChecklistForDocument c8State "dx" "u1" =
       .error ApiError.notFound ∧
     (∀ fn parsed rid now, generate c8State "dx" "u1" fn parsed rid now =
       .error ApiError.notFound)) ∧
    findAll c8State "u1" = findAll initState "u1" :=
  ⟨(c8_user_scoping c8State initState "u1").2.1 "cx"
      (by intro c hc; simp only [c8State, List.mem_singleton] at hc;
          subst hc; intro _; decide),
   (c8_user_scoping c8State initState "u1").2.2.1 "dx"
      (by intro d hd; simp only [c8State, List.mem_singleton] at hd;
          subst hd; intro _; decide),
   ((c8_user_scoping c8State initState "u1").2.2.2.2 rfl rfl).1⟩

/-! ## C2: linked-row uniqueness and idempotent redelivery -/

/-- C2: in every reachable state at most one Checklist row references a
given document, and a worker job step taken for a document that is already
`done` performs no database mutation: the Document and Checklist tables are
unchanged (the only enabled job step is the short-circuiting exit). -/
theorem c2_unique_and_idempotent {s : SysState} (h : Reachable s) :
    (∀ docId, linkedCount s docId ≤ 1) ∧
    (∀ e s' k j, Step s e s' → e.jobIndex = some k → s.jobs[k]? = some j →
      docStatus s j.payload.documentId = some Status.done →
      s'.documents = s.documents ∧ s'.checklists = s.checklists) := by
  have inv := reachable_inv h
  refine ⟨inv.linkedUnique, ?_⟩
  intro e s' k j hstep hidx hj hdone
  cases hstep with
  | upload userId file fileUrl newDocId hfresh =>
    simp [Event.jobIndex] at hidx
  | deliver i p hp =>
    simp [Event.jobIndex] at hidx
  | beginJob i p hj' hst0 =>
    simp only [Event.jobIndex, Option.some.injEq] at hidx
    subst hidx
    rw [hj'] at hj
    have hjp := Option.some.inj hj
    rw [← hjp] at hdone
    rw [hst0] at hdone
    exact absurd (Option.some.inj hdone) (by decide)
  | skipJob i p hj' hst0 =>
    exact ⟨rfl, rfl⟩
  | insertRow i p data rowId now hj' hfresh huniq =>
    simp only [Event.jobIndex, Option.some.injEq] at hidx
    subst hidx
    rw [hj'] at hj
    have hjp := Option.some.inj hj
    have hproc := inv.activeProcessing i ⟨p, .working⟩ hj' (Or.inl rfl)
    rw [← hjp] at hdone
    rw [hproc] at hdone
    exact absurd (Option.some.inj hdone) (by decide)
  | finishJob i p hj' =>
    simp only [Event.jobIndex, Option.some.injEq] at hidx
    subst hidx
    rw [hj'] at hj
    have hjp := Option.some.inj hj
    have hproc := inv.activeProcessing i ⟨p, .inserted⟩ hj' (Or.inr rfl)
    rw [← hjp] at hdone
    rw [hproc] at hdone
    exact absurd (Option.some.inj hdone) (by decide)
  | failJob i p ph hj' hph =>
    simp only [Event.jobIndex, Option.some.injEq] at hidx
    subst hidx
    rw [hj'] at hj
    have hjp := Option.some.inj hj
    have hproc := inv.activeProcessing i ⟨p, ph⟩ hj' hph
    rw [← hjp] at hdone
    rw [hproc] at hdone
    exact absurd (Option.some.inj hdone) (by decide)
  | apiGenerate documentId userId fileName parsed rowId now row cj hfresh hgen =>
    simp [Event.jobIndex] at hidx
  | apiCreate userId body rowId now hfresh =>
    simp [Event.jobIndex] at hidx
  | apiDelete id userId l hdel =>
    simp [Event.jobIndex] at hidx

/-! ## A concrete execution of the system, used by the witnesses and by
the C5 counterexample -/

/-- The uploaded file of the concrete run. -/
def wFile : UploadedFile := ⟨some "edital.pdf", "application/pdf"⟩

/-- Storage key the upload produces. -/
def wKey : String := "u1" ++ "/" ++ "d1" ++ extOf wFile.originalname

/-- The queued payload of the concrete run. -/
def wPayload : JobPayload := mkPayload "u1" "d1" "minio/u1/d1.pdf" wFile

/-- The document row of the concrete run. -/
def wDoc : DocumentRow := mkDocRow "u1" "d1" wFile wKey

/-- State after the upload. -/
def t1 : SysState :=
  { documents := [wDoc], checklists := [], pushed := [wPayload], jobs := [] }

/-- State after the payload is delivered to the worker. -/
def t2 : SysState := { t1 with jobs := [⟨wPayload, .started⟩] }

/-- State after the worker marks the document `processing`. -/
def t3 : SysState :=
  { documents := [{ wDoc with status := Status.processing }]
    checklists := []
    pushed := [wPayload]
    jobs := [⟨wPayload, .working⟩] }

/-- State after the worker inserts the linked checklist row. -/
def t4 : SysState :=
  { t3 with
    checklists := [workerRow wPayload sampleChecklist "c1" 5]
    jobs := [⟨wPayload, .inserted⟩] }

/-- State after the worker marks the document `done`. -/
def t5 : SysState :=
  { t4 with
    documents := [{ wDoc with status := Status.done }]
    jobs := [⟨wPayload, .finished⟩] }

/-- State after a duplicate delivery of the payload. -/
def t6 : SysState :=
  { t5 with jobs := [⟨wPayload, .finished⟩, ⟨wPayload, .started⟩] }

/-- State after the duplicate job short-circuits. -/
def t7 : SysState :=
  { t6 with jobs := [⟨wPayload, .finished⟩, ⟨wPayload, .finished⟩] }

theorem reach_t1 : Reachable t1 :=
  Reachable.step Reachable.init
    (Step.upload initState "u1" wFile "minio/u1/d1.pdf" "d1"
      (by intro d hd; simp [initState] at hd))

theorem reach_t2 : Reachable t2 :=
  Reachable.step reach_t1 (Step.deliver t1 0 wPayload rfl)

theorem reach_t3 : Reachable t3 :=
  Reachable.step reach_t2 (Step.beginJob t2 0 wPayload rfl rfl)

theorem reach_t4 : Reachable t4 :=
  Reachable.step reach_t3
    (Step.insertRow t3 0 wPayload sampleChecklist "c1" 5 rfl
      (by intro c hc; simp [t3] at hc) rfl)

theorem reach_t5 : Reachable t5 :=
  Reachable.step reach_t4 (Step.finishJob t4 0 wPayload rfl)

theorem reach_t6 : Reachable t6 :=
  Reachable.step reach_t5 (Step.deliver t5 0 wPayload rfl)

/-- Witness for C2: in the state where document d1 is `done` with its
linked checklist row and its payload has been delivered a second time, at
most one row references d1, and the duplicate job's short-circuit step
mutates neither table. -/
theorem c2_unique_and_idempotent_witness :
    linkedCount t6 "d1" ≤ 1 ∧
    (t7.documents = t6.documents ∧ t7.checklists = t6.checklists) :=
  ⟨(c2_unique_and_idempotent reach_t6).1 "d1",
   (c2_unique_and_idempotent reach_t6).2 (Event.skipJob 1) t7 1
     ⟨wPayload, WorkerPhase.started⟩
     (Step.skipJob t6 1 wPayload rfl (by decide)) rfl rfl rfl⟩

/-! ## C5: insertion is between `processing` and `done` -/

/-- State after the owner deletes the freshly inserted checklist row while
the worker job is still between its insert and its `done` write. -/
def t5del : SysState := { t4 with checklists := [] }

/-- State after the worker then marks the document `done`: the document is
`done` and no checklist row exists. -/
def t6del : SysState :=
  { t5del with
    documents := [{ wDoc with status := Status.done }]
    jobs := [⟨wPayload, .finished⟩] }

theorem reach_t5del : Reachable t5del :=
  Reachable.step reach_t4 (Step.apiDelete t4 "c1" "u1" [] rfl)

theorem reach_t6del : Reachable t6del :=
  Reachable.step reach_t5del (Step.finishJob t5del 0 wPayload rfl)

/-- C5 counterexample: the claim promises that an observer finds the
checklist already present at the moment status `done` is first observed.
In the reachable execution where the owner deletes the checklist (API
`DELETE /checklists/:id`) between the worker's insert and its `done`
write, the `done` transition is taken from a state with no linked row:
immediately after it the document reads `done` while
`getChecklistForDocument` throws `NotFoundException`. -/
theorem c5_counterexample :
    Reachable t5del ∧
    Step t5del (Event.finishJob 0) t6del ∧
    docStatus t5del "d1" = some Status.processing ∧
    hasLinked t5del "d1" = false ∧
    docStatus t6del "d1" = some Status.done ∧
    getChecklistForDocument t6del "d1" "u1" = .error ApiError.notFound :=
  ⟨reach_t5del, Step.finishJob t5del 0 wPayload rfl, rfl, rfl, rfl, rfl⟩

/-- C5 amended: a linked checklist row is inserted only while its document
is in status `processing` (hence strictly after the document reached
`processing` and strictly before it is set to `done`), and when the worker
marks a document `done` the document reads `done` and — provided the row
has not been deleted by its owner in the interim — the checklist is
retrievable by the document's owner at that very moment. -/
theorem c5_insert_window {s : SysState} (hr : Reachable s) :
    ∀ e s', Step s e s' →
    (∀ i data rowId now j, e = Event.insertRow i data rowId now →
      s.jobs[i]? = some j →
      docStatus s j.payload.documentId = some Status.processing ∧
      docStatus s' j.payload.documentId = some Status.processing) ∧
    (∀ i j, e = Event.finishJob i → s.jobs[i]? = some j →
      docStatus s' j.payload.documentId = some Status.done ∧
      (hasLinked s j.payload.documentId = true →
        ∃ jd, getChecklistForDocument s' j.payload.documentId
          j.payload.userId = .ok jd)) := by
  have inv := reachable_inv hr
  intro e s' hstep
  constructor
  · intro i data rowId now j he hj
    subst he
    cases hstep with
    | insertRow i p data rowId now hj' hfresh huniq =>
      rw [hj'] at hj
      have hjp := Option.some.inj hj
      have hproc := inv.activeProcessing i ⟨p, .working⟩ hj' (Or.inl rfl)
      rw [← hjp]
      exact ⟨hproc, hproc⟩
  · intro i j he hj
    subst he
    cases hstep with
    | finishJob i p hj' =>
      rw [hj'] at hj
      have hjp := Option.some.inj hj
      have hproc := inv.activeProcessing i ⟨p, .inserted⟩ hj' (Or.inr rfl)
      rw [← hjp]
      constructor
      · show docStatus _ p.documentId = _
        unfold docStatus at hproc ⊢
        simp [statusIn_setStatus, hproc]
      · intro hlink
        obtain ⟨c, hcm, hcd⟩ := hasLinked_true_iff.mp hlink
        obtain ⟨d, hdm, hdid, hdu⟩ := inv.linkedOwner c hcm p.documentId hcd
        have hpm := inv.jobFromPushed ⟨p, .inserted⟩ (mem_of_get? hj')
        obtain ⟨d2, hd2m, hd2id, hd2u⟩ := inv.pushedOwner p hpm
        have hdd : d = d2 := List.inj_on_of_nodup_map inv.docIdsNodup
          hdm hd2m (by rw [hdid, hd2id])
        have hcu : c.userId = p.userId := by rw [← hdu, hdd, hd2u]
        obtain ⟨d', hd'm, hd'id, hd'u⟩ :=
          mem_setStatus_of_mem p.documentId Status.done hd2m
        have hfd : (findDocument
            { s with
              documents := setStatus s.documents p.documentId Status.done
              jobs := s.jobs.set i ⟨p, .finished⟩ }
            p.documentId p.userId).isSome = true := by
          unfold findDocument
          rw [List.find?_isSome]
          exact ⟨d', hd'm, by simp [hd'id.trans hd2id, hd'u.trans hd2u]⟩
        obtain ⟨df, hdf⟩ := Option.isSome_iff_exists.mp hfd
        have hfc : (s.checklists.find? (fun c =>
            c.documentId == some p.documentId &&
              c.userId == p.userId)).isSome = true := by
          rw [List.find?_isSome]
          exact ⟨c, hcm, by simp [hcd, hcu]⟩
        obtain ⟨cf, hcf⟩ := Option.isSome_iff_exists.mp hfc
        exact ⟨cf.data, by simp only [getChecklistForDocument, hdf, hcf]⟩

/-- Witness for C5 (amended) at the concrete run in which no delete
intervenes: right after the worker's `done` write the document reads
`done` and the owner retrieves the checklist. -/
theorem c5_insert_window_witness :
    docStatus t5 "d1" = some Status.done ∧
    (∃ jd, getChecklistForDocument t5 "d1" "u1" = .ok jd) := by
  have h := ((c5_insert_window reach_t4 (Event.finishJob 0) t5
    (Step.finishJob t4 0 wPayload rfl)).2 0
    ⟨wPayload, WorkerPhase.inserted⟩ rfl rfl)
  exact ⟨h.1, h.2 rfl⟩

/-! ## C4: status lifecycle monotonicity -/

/-- The status transitions a single step may perform on one document:
no change, creation at `pending`, or one edge of
`pending → processing → (done | failed)`. -/
def okTrans (o o' : Option Status) : Prop :=
  o' = o ∨
  (o = none ∧ o' = some Status.pending) ∨
  (o = some Status.pending ∧ o' = some Status.processing) ∨
  (o = some Status.processing ∧ o' = some Status.done) ∨
  (o = some Status.processing ∧ o' = some Status.failed)

/-- Immediate successor in the lifecycle. -/
def succSt (a b : Status) : Prop :=
  (a = Status.pending ∧ b = Status.processing) ∨
  (a = Status.processing ∧ b = Status.done) ∨
  (a = Status.processing ∧ b = Status.failed)

/-- A list of statuses each of which is the lifecycle successor of the
previous one, starting after `a`. -/
def chainOk : Status → List Status → Prop
  | _, [] => True
  | a, b :: t => succSt a b ∧ chainOk b t

/-- Collapse consecutive repetitions (the observable sequence of a polled
value). -/
def dedupC : List Status → List Status
  | [] => []
  | [a] => [a]
  | a :: b :: t => if a = b then dedupC (b :: t) else a :: dedupC (b :: t)

/-- List prefix (spelled out to keep the statement elementary). -/
def PrefixOfL (xs ys : List Status) : Prop := ∃ t, xs ++ t = ys

/-- The two observable lifecycles of the claim. -/
def GoodSeq (l : List Status) : Prop :=
  PrefixOfL l [Status.pending, Status.processing, Status.done] ∨
  PrefixOfL l [Status.pending, Status.processing, Status.failed]

/-- Adjacent pairs of the list satisfy `okTrans`. -/
def TransOk : List (Option Status) → Prop
  | [] => True
  | [_] => True
  | a :: b :: t => okTrans a b ∧ TransOk (b :: t)

/-- Per-document status sequence along a list of states. -/
def statusesOf (l : List SysState) (id : String) : List (Option Status) :=
  l.map (fun st => docStatus st id)

/-- The observable status sequence of a document along a list of states:
statuses while the row exists, consecutive repetitions collapsed. -/
def obsSeq (l : List SysState) (id : String) : List Status :=
  dedupC (statusesOf l id).reduceOption

/-- Adjacent states of an execution are related by `Step`. -/
def Chain : List SysState → Prop
  | [] => True
  | [_] => True
  | a :: b :: t => (∃ e, Step a e b) ∧ Chain (b :: t)

/-- An execution of the system from the empty initial state. -/
def Run (l : List SysState) : Prop := l.head? = some initState ∧ Chain l

theorem step_okTrans {s : SysState} {e : Event} {s' : SysState}
    (inv : Inv s) (hstep : Step s e s') (id : String) :
    okTrans (docStatus s id) (docStatus s' id) := by
  cases hstep with
  | upload userId file fileUrl newDocId hfresh =>
    show okTrans (statusIn s.documents id)
      (statusIn (s.documents ++ [mkDocRow userId newDocId file
        (userId ++ "/" ++ newDocId ++ extOf file.originalname)]) id)
    rw [statusIn_append]
    cases hS : statusIn s.documents id with
    | some st => exact Or.inl (by simp [Option.or])
    | none =>
      by_cases h2 : newDocId = id
      · refine Or.inr (Or.inl ⟨rfl, ?_⟩)
        simp [Option.or, statusIn, List.find?_cons, mkDocRow, h2]
      · refine Or.inl ?_
        simp [Option.or, statusIn, List.find?_cons, mkDocRow, h2]
  | deliver i p hp => exact Or.inl rfl
  | beginJob i p hj hst0 =>
    show okTrans (statusIn s.documents id)
      (statusIn (setStatus s.documents p.documentId Status.processing) id)
    rw [statusIn_setStatus]
    by_cases h2 : p.documentId = id
    · rw [if_pos h2]
      subst h2
      unfold docStatus at hst0
      rw [hst0]
      exact Or.inr (Or.inr (Or.inl ⟨rfl, rfl⟩))
    · rw [if_neg h2]
      exact Or.inl rfl
  | skipJob i p hj hst0 => exact Or.inl rfl
  | insertRow i p data rowId now hj hfresh huniq => exact Or.inl rfl
  | finishJob i p hj =>
    have hproc := inv.activeProcessing i ⟨p, .inserted⟩ hj (Or.inr rfl)
    show okTrans (statusIn s.documents id)
      (statusIn (setStatus s.documents p.documentId Status.done) id)
    rw [statusIn_setStatus]
    by_cases h2 : p.documentId = id
    · rw [if_pos h2]
      subst h2
      unfold docStatus at hproc
      rw [hproc]
      exact Or.inr (Or.inr (Or.inr (Or.inl ⟨rfl, rfl⟩)))
    · rw [if_neg h2]
      exact Or.inl rfl
  | failJob i p ph hj hph =>
    have hproc := inv.activeProcessing i ⟨p, ph⟩ hj hph
    show okTrans (statusIn s.documents id)
      (statusIn (setStatus s.documents p.documentId Status.failed) id)
    rw [statusIn_setStatus]
    by_cases h2 : p.documentId = id
    · rw [if_pos h2]
      subst h2
      unfold docStatus at hproc
      rw [hproc]
      exact Or.inr (Or.inr (Or.inr (Or.inr ⟨rfl, rfl⟩)))
    · rw [if_neg h2]
      exact Or.inl rfl
  | apiGenerate documentId userId fileName parsed rowId now row cj hf hg =>
    exact Or.inl rfl
  | apiCreate userId body rowId now hfresh => exact Or.inl rfl
  | apiDelete id2 userId l hdel => exact Or.inl rfl

theorem succSt_ne {a b : Status} (h : succSt a b) : a ≠ b := by
  rcases h with ⟨h1, h2⟩ | ⟨h1, h2⟩ | ⟨h1, h2⟩ <;> (subst h1; subst h2; decide)

theorem okTrans_some {a : Status} {o' : Option Status}
    (h : okTrans (some a) o') :
    o' = some a ∨ ∃ b, o' = some b ∧ succSt a b := by
  rcases h with h | ⟨h1, _⟩ | ⟨h1, h2⟩ | ⟨h1, h2⟩ | ⟨h1, h2⟩
  · exact Or.inl h
  · exact absurd h1 (by simp)
  · exact Or.inr ⟨Status.processing, h2, Or.inl ⟨Option.some.inj h1, rfl⟩⟩
  · exact Or.inr ⟨Status.done, h2, Or.inr (Or.inl ⟨Option.some.inj h1, rfl⟩)⟩
  · exact Or.inr ⟨Status.failed, h2,
      Or.inr (Or.inr ⟨Option.some.inj h1, rfl⟩)⟩

theorem dedupC_from_some : ∀ (os : List (Option Status)) (a : Status),
    TransOk (some a :: os) →
    ∃ l2, dedupC ((some a :: os).reduceOption) = a :: l2 ∧ chainOk a l2 := by
  intro os
  induction os with
  | nil => exact fun a _ => ⟨[], rfl, trivial⟩
  | cons o t ih =>
    intro a htr
    obtain ⟨h1, h2⟩ := htr
    rcases okTrans_some h1 with ho | ⟨b, hb, hsucc⟩
    · subst ho
      obtain ⟨l2, hd, hc⟩ := ih a h2
      refine ⟨l2, ?_, hc⟩
      simp only [List.reduceOption_cons_of_some] at hd ⊢
      rw [show dedupC (a :: a :: t.reduceOption) =
        dedupC (a :: t.reduceOption) from by simp [dedupC]]
      exact hd
    · subst hb
      have hne : a ≠ b := succSt_ne hsucc
      obtain ⟨l2, hd, hc⟩ := ih b h2
      refine ⟨b :: l2, ?_, hsucc, hc⟩
      simp only [List.reduceOption_cons_of_some] at hd ⊢
      rw [show dedupC (a :: b :: t.reduceOption) =
        a :: dedupC (b :: t.reduceOption) from by simp [dedupC, hne]]
      rw [hd]

theorem dedupC_from_none : ∀ (os : List (Option Status)),
    TransOk (none :: os) →
    dedupC ((none :: os).reduceOption) = [] ∨
    ∃ l2, dedupC ((none :: os).reduceOption) = Status.pending :: l2 ∧
      chainOk Status.pending l2 := by
  intro os
  induction os with
  | nil => exact fun _ => Or.inl rfl
  | cons o t ih =>
    intro htr
    obtain ⟨h1, h2⟩ := htr
    rcases h1 with h1 | ⟨_, h1⟩ | ⟨h1, _⟩ | ⟨h1, _⟩ | ⟨h1, _⟩
    · subst h1
      rw [List.reduceOption_cons_of_none]
      rw [show ((none :: t : List (Option Status)).reduceOption) =
        t.reduceOption from List.reduceOption_cons_of_none t] at ih ⊢
      exact ih h2
    · subst h1
      right
      rw [List.reduceOption_cons_of_none]
      exact dedupC_from_some t Status.pending h2
    · exact absurd h1 (by simp)
    · exact absurd h1 (by simp)
    · exact absurd h1 (by simp)

theorem chainOk_pending_good {l : List Status}
    (h : chainOk Status.pending l) : GoodSeq (Status.pending :: l) := by
  match l, h with
  | [], _ =>
    exact Or.inl ⟨[Status.processing, Status.done], rfl⟩
  | b :: t, ⟨hs, hrest⟩ =>
    have hb : b = Status.processing := by
      rcases hs with ⟨_, h2⟩ | ⟨h1, _⟩ | ⟨h1, _⟩
      · exact h2
      · exact absurd h1 (by decide)
      · exact absurd h1 (by decide)
    subst hb
    match t, hrest with
    | [], _ => exact Or.inl ⟨[Status.done], rfl⟩
    | c :: t2, ⟨hs2, hrest2⟩ =>
      rcases hs2 with ⟨h1, _⟩ | ⟨_, h4⟩ | ⟨_, h4⟩
      · exact absurd h1 (by decide)
      · subst h4
        match t2, hrest2 with
        | [], _ => exact Or.inl ⟨[], rfl⟩
        | d :: _, ⟨hs3, _⟩ =>
          rcases hs3 with ⟨h1, _⟩ | ⟨h1, _⟩ | ⟨h1, _⟩ <;>
            exact absurd h1 (by decide)
      · subst h4
        match t2, hrest2 with
        | [], _ => exact Or.inr ⟨[], rfl⟩
        | d :: _, ⟨hs3, _⟩ =>
          rcases hs3 with ⟨h1, _⟩ | ⟨h1, _⟩ | ⟨h1, _⟩ <;>
            exact absurd h1 (by decide)

theorem chain_transOk {id : String} : ∀ (l : List SysState) (s : SysState),
    Reachable s → Chain (s :: l) → TransOk (statusesOf (s :: l) id) := by
  intro l
  induction l with
  | nil => intro s _ _; trivial
  | cons s2 t ih =>
    intro s hr hch
    obtain ⟨⟨e, hstep⟩, hch2⟩ := hch
    exact ⟨step_okTrans (reachable_inv hr) hstep id,
      ih s2 (Reachable.step hr hstep) hch2⟩

/-- C4: along every execution from the initial state, the observable
status sequence of any document is a prefix of
`pending, processing, done` or of `pending, processing, failed`: every
Document row is created at `pending`, a document never re-enters
`processing`, and a `done` (or `failed`) document's status never
changes. -/
theorem c4_status_monotonic (l : List SysState) (id : String)
    (hrun : Run l) : GoodSeq (obsSeq l id) := by
  obtain ⟨hhead, hchain⟩ := hrun
  cases l with
  | nil => exact absurd hhead (by simp)
  | cons s0 rest =>
    have hs0 : s0 = initState := by simpa using hhead
    subst hs0
    have htr : TransOk (statusesOf (initState :: rest) id) :=
      chain_transOk rest initState Reachable.init hchain
    have heq : statusesOf (initState :: rest) id =
        none :: statusesOf rest id := by
      simp [statusesOf]
      rfl
    unfold obsSeq
    rw [heq] at htr ⊢
    rcases dedupC_from_none (statusesOf rest id) htr with h | ⟨l2, hd, hc⟩
    · rw [h]
      exact Or.inl ⟨[Status.pending, Status.processing, Status.done], rfl⟩
    · rw [hd]
      exact chainOk_pending_good hc

/-- Witness for C4 along the concrete successful run of the system. -/
theorem c4_status_monotonic_witness :
    GoodSeq (obsSeq [initState, t1, t2, t3, t4, t5] "d1") :=
  c4_status_monotonic [initState, t1, t2, t3, t4, t5] "d1"
    ⟨rfl,
     ⟨⟨Event.upload "u1" wFile "minio/u1/d1.pdf" "d1",
       Step.upload initState "u1" wFile "minio/u1/d1.pdf" "d1"
         (by intro d hd; simp [initState] at hd)⟩,
      ⟨Event.deliver 0, Step.deliver t1 0 wPayload rfl⟩,
      ⟨Event.beginJob 0, Step.beginJob t2 0 wPayload rfl rfl⟩,
      ⟨Event.insertRow 0 sampleChecklist "c1" 5,
       Step.insertRow t3 0 wPayload sampleChecklist "c1" 5 rfl
         (by intro c hc; simp [t3] at hc) rfl⟩,
      ⟨Event.finishJob 0, Step.finishJob t4 0 wPayload rfl⟩,
      trivial⟩⟩

end HiLicita
